import Mathlib

/-!
Verification of the asset-catalog storage and upload/delete handlers
(MaheshKok/climate-x-assignment).

The in-memory store of `src/lib/storage.ts` is embedded as an association
list from company identifiers to ordered buckets of asset records; JS
numbers are embedded as exact rationals.  JS objects keep string keys in
insertion order, and assignment of a fresh key appends it at the end, which
the association-list embedding reproduces.  The API-route handlers of
`pages/api/assets/upload.ts` and the DELETE handler are embedded as pure
functions from a store and a request to a store and a response.
-/

namespace ClimateX

/-- An asset record as in `src/types/asset.ts` (`Asset`). -/
structure Asset where
  address : String
  latitude : ℚ
  longitude : ℚ
  deriving DecidableEq, Repr

/-- An asset tagged with its owning company, as in `AssetWithCompany`. -/
structure AssetWithCompany where
  address : String
  latitude : ℚ
  longitude : ℚ
  companyId : String
  deriving DecidableEq, Repr

/-- The store of `AssetStorage`: company identifier to ordered bucket,
in key-insertion order like a JS object. -/
abbrev Store := List (String × List Asset)

/-- The duplicate tolerance `0.0001` used in `addAssets` and `deleteAsset`. -/
def tolerance : ℚ := 0.0001

/-- The pairwise duplicate test of `addAssets`
(`Math.abs(existing.latitude - asset.latitude) < 0.0001 && ...`). -/
def isDup (existing asset : Asset) : Bool :=
  decide (|existing.latitude - asset.latitude| < tolerance) &&
    decide (|existing.longitude - asset.longitude| < tolerance)

/-- The coordinate match test of `deleteAsset`
(`Math.abs(asset.latitude - latitude) < 0.0001 && ...`). -/
def matchesCoords (latitude longitude : ℚ) (asset : Asset) : Bool :=
  decide (|asset.latitude - latitude| < tolerance) &&
    decide (|asset.longitude - longitude| < tolerance)

/-- Lookup of `this.storage[companyId]`: first entry with the given key. -/
def findBucket : Store → String → Option (List Asset)
  | [], _ => none
  | (k, v) :: rest, c => if k = c then some v else findBucket rest c

/-- The bucket for a company, defaulting to `[]`
(`this.storage[companyId] || []`). -/
def bucketOf (s : Store) (c : String) : List Asset :=
  (findBucket s c).getD []

/-- Assignment `this.storage[companyId] = v` for a key already present:
replace the entry in place. -/
def updateKey : Store → String → List Asset → Store
  | [], _, _ => []
  | (k, v) :: rest, c, nv =>
    if k = c then (c, nv) :: rest else (k, v) :: updateKey rest c nv

/-- `delete this.storage[companyId]`: remove the entry with the given key. -/
def eraseKey : Store → String → Store
  | [], _ => []
  | (k, v) :: rest, c => if k = c then rest else (k, v) :: eraseKey rest c

/-- Tag every record of a bucket with its company identifier. -/
def tagWith (c : String) (assets : List Asset) : List AssetWithCompany :=
  assets.map (fun a => ⟨a.address, a.latitude, a.longitude, c⟩)

/-- All records of all buckets, in bucket-then-insertion order
(the no-filter branch of `getAssets`). -/
def allAssets (s : Store) : List AssetWithCompany :=
  (s.map (fun p => tagWith p.1 p.2)).flatten

/-- `AssetStorage.getAssets`.  The `companyId?` parameter is optional and
tested with JS truthiness (`if (companyId)`), so both an absent argument
and the empty string take the all-assets branch; a non-empty argument is
used as an exact key into the storage object. -/
def getAssets (s : Store) (companyId : Option String) : List AssetWithCompany :=
  match companyId with
  | some cid => if cid = "" then allAssets s else tagWith cid (bucketOf s cid)
  | none => allAssets s

/-- The loop of `addAssets`: walk the input in order, comparing each record
against the pre-existing bucket only (the `existingAssets` reference is
captured before the loop and `push` happens after it), collecting the
non-duplicates in order and counting the skipped duplicates. -/
def scanAssets (existing : List Asset) : List Asset → List Asset × Nat
  | [] => ([], 0)
  | a :: rest =>
    let r := scanAssets existing rest
    if existing.any (fun e => isDup e a) then (r.1, r.2 + 1) else (a :: r.1, r.2)

/-- Result record of `addAssets`. -/
structure AddResult where
  added : List Asset
  duplicatesSkipped : Nat
  deriving DecidableEq, Repr

/-- `AssetStorage.addAssets`: create the bucket if absent, scan the input
against the pre-existing records, append the accepted records at the end. -/
def addAssets (s : Store) (c : String) (assets : List Asset) : Store × AddResult :=
  let s1 := if (findBucket s c).isNone then s ++ [(c, [])] else s
  let existing := bucketOf s1 c
  let r := scanAssets existing assets
  (updateKey s1 c (existing ++ r.1), ⟨r.1, r.2⟩)

/-- Result record of `deleteAsset`. -/
structure DeleteResult where
  success : Bool
  deletedAsset : Option Asset
  deriving DecidableEq, Repr

/-- `AssetStorage.deleteAsset`: fail when the key is absent or nothing is in
the tolerance window; otherwise drop every matching record, report the first
match, and erase the key when the bucket became empty. -/
def deleteAsset (s : Store) (c : String) (latitude longitude : ℚ) :
    Store × DeleteResult :=
  match findBucket s c with
  | none => (s, ⟨false, none⟩)
  | some bucket =>
    match bucket.filter (matchesCoords latitude longitude) with
    | [] => (s, ⟨false, none⟩)
    | d :: _ =>
      let remaining := bucket.filter (fun a => ! matchesCoords latitude longitude a)
      let s' := if remaining.isEmpty then eraseKey s c else updateKey s c remaining
      (s', ⟨true, some d⟩)

/-- `AssetStorage.getAllCompanies` (`Object.keys`). -/
def getAllCompanies (s : Store) : List String :=
  s.map Prod.fst

/-- `AssetStorage.getTotalAssets`: sum of all bucket sizes. -/
def getTotalAssets (s : Store) : Nat :=
  (s.map (fun p => p.2.length)).sum

/-! Upload and delete API handlers. -/

/-- JS `String.prototype.trim` on the character list: drop whitespace from
both ends. -/
def trimChars (l : List Char) : List Char :=
  ((l.dropWhile Char.isWhitespace).reverse.dropWhile Char.isWhitespace).reverse

/-- JS `String.prototype.trim`. -/
def strTrim (s : String) : String :=
  ⟨trimChars s.data⟩

/-- The violation messages one record contributes in `validateAssets` of
`pages/api/assets/upload.ts`, pushed in source order (address, latitude,
longitude); `i` is the zero-based position of the record in the batch. -/
def assetViolations (i : Nat) (a : Asset) : List String :=
  (if strTrim a.address = "" then
    ["Asset " ++ toString (i + 1) ++ ": address cannot be empty"] else []) ++
  (if a.latitude < -90 ∨ a.latitude > 90 then
    ["Asset " ++ toString (i + 1) ++ ": latitude must be a number between -90 and 90"] else []) ++
  (if a.longitude < -180 ∨ a.longitude > 180 then
    ["Asset " ++ toString (i + 1) ++ ": longitude must be a number between -180 and 180"] else [])

/-- The `assets.forEach((asset, index) => ...)` loop of `validateAssets`,
started at index `i`. -/
def validateFrom : Nat → List Asset → List String
  | _, [] => []
  | i, a :: rest => assetViolations i a ++ validateFrom (i + 1) rest

/-- `validateAssets` of `pages/api/assets/upload.ts`. -/
def validateAssets (assets : List Asset) : List String :=
  validateFrom 0 assets

/-- A single record passes the upload validator. -/
def recordValid (a : Asset) : Bool :=
  (assetViolations 0 a).isEmpty

/-- Response of the upload handler (status code plus JSON body fields). -/
structure UploadResponse where
  status : Nat
  success : Bool
  message : String
  assets : List Asset
  duplicatesSkipped : Nat
  error : Option String
  deriving DecidableEq, Repr

/-- The upload handler of `pages/api/assets/upload.ts` from the point where
a batch has been parsed: validate all records, reject the whole batch with
the joined messages if any fail, otherwise store under the trimmed company
identifier (`assetStorage.addAssets(companyId.trim(), assets)`). -/
def uploadValidated (s : Store) (companyId : String) (assets : List Asset) :
    Store × UploadResponse :=
  let errs := validateAssets assets
  if errs.isEmpty then
    let r := addAssets s (strTrim companyId) assets
    let base := "Successfully uploaded " ++ toString r.2.added.length ++
      " asset(s) for company " ++ companyId
    let msg := if r.2.duplicatesSkipped > 0 then
      base ++ ". " ++ toString r.2.duplicatesSkipped ++ " duplicate(s) were skipped"
    else base
    (r.1, ⟨200, true, msg, r.2.added, r.2.duplicatesSkipped, none⟩)
  else
    (s, ⟨400, false, "Data validation failed", [], 0, some (String.intercalate "; " errs)⟩)

/-- Response of the delete handler (status code plus JSON body fields;
`deletedAsset` is the `{address, companyId}` pair of the response body). -/
structure DeleteResponse where
  status : Nat
  success : Bool
  message : String
  deletedAsset : Option (String × String)
  error : Option String
  deriving DecidableEq, Repr

/-- The DELETE `/assets/delete` handler: validate the fields, then call
`assetStorage.deleteAsset(companyId, latitude, longitude)` with the
companyId exactly as received (not trimmed), answering 404 when the
delete reports no match. -/
def deleteHandler (s : Store) (companyId : String) (latitude longitude : ℚ) :
    Store × DeleteResponse :=
  if strTrim companyId = "" then
    (s, ⟨400, false, "Validation failed", none, some "companyId is required"⟩)
  else if latitude < -90 ∨ latitude > 90 then
    (s, ⟨400, false, "Validation failed", none, some "latitude must be between -90 and 90"⟩)
  else if longitude < -180 ∨ longitude > 180 then
    (s, ⟨400, false, "Validation failed", none, some "longitude must be between -180 and 180"⟩)
  else
    let r := deleteAsset s companyId latitude longitude
    match r.2.success, r.2.deletedAsset with
    | true, some d =>
      (r.1, ⟨200, true,
        "Asset \x22" ++ d.address ++ "\x22 deleted successfully from company " ++ companyId,
        some (d.address, companyId), none⟩)
    | _, _ =>
      (r.1, ⟨404, false, "Asset not found", none,
        some ("No asset found at the given coordinates for company " ++ companyId)⟩)

/-! The list operation as the spec describes it, for comparison with
`getAssets`. -/

/-- Char-list version of JS `String.prototype.startsWith`. -/
def startsWithChars : List Char → List Char → Bool
  | _, [] => true
  | [], _ :: _ => false
  | x :: xs, y :: ys => x == y && startsWithChars xs ys

/-- Char-list version of JS `String.prototype.includes`. -/
def hasSub : List Char → List Char → Bool
  | [], pat => pat.isEmpty
  | h :: t, pat => startsWithChars (h :: t) pat || hasSub t pat

/-- Case-insensitive substring match of a filter against a company id. -/
def companyMatches (filt cid : String) : Bool :=
  hasSub (cid.data.map Char.toLower) (filt.data.map Char.toLower)

/-- Follows the wording of spec §4.3 (`list`): a filter "is treated as a
case-insensitive *substring* match against company identifiers", returning
the records of every matching bucket tagged with their company.  This is
NOT translated from `storage.ts`; it exists to be compared with
`getAssets`, which the storage unit tests and README of the repository itself
expect to behave this way. -/
def getAssetsSpec (s : Store) (filt : String) : List AssetWithCompany :=
  ((s.filter (fun p => companyMatches filt p.1)).map (fun p => tagWith p.1 p.2)).flatten

/-! Store operation sequences, for the non-empty-bucket invariant. -/

/-- One public operation of `AssetStorage`. -/
inductive StoreOp where
  | add (c : String) (assets : List Asset)
  | del (c : String) (latitude longitude : ℚ)
  | list (companyId : Option String)
  | companies
  | totalCount
  deriving DecidableEq, Repr

/-- Effect of one operation on the store (the read operations
`getAssets`, `getAllCompanies`, `getTotalAssets` do not mutate it). -/
def applyOp (s : Store) : StoreOp → Store
  | .add c assets => (addAssets s c assets).1
  | .del c la lo => (deleteAsset s c la lo).1
  | .list _ => s
  | .companies => s
  | .totalCount => s

/-- Run a sequence of operations left to right. -/
def applyOps (s : Store) (ops : List StoreOp) : Store :=
  ops.foldl applyOp s

/-- The spec §3 invariant: every key present maps to a non-empty bucket. -/
def storeInv (s : Store) : Prop :=
  ∀ p ∈ s, p.2 ≠ ([] : List Asset)

/-- An operation whose `add` input, if it is an `add`, is non-empty. -/
def addNonemptyInput : StoreOp → Bool
  | .add _ assets => ! assets.isEmpty
  | _ => true

instance storeInvDecidable (s : Store) : Decidable (storeInv s) :=
  List.decidableBAll _ s

/-! ### Sample data used by the closed theorems -/

/-! ### Sample data used by the closed theorems -/

/-- First seeded record of bucket `company1` in `storage.ts`. -/
def sampleA : Asset := ⟨"123 Main St, New York, NY", 40.7128, -74.006⟩

/-- Second seeded record of bucket `company1` in `storage.ts`. -/
def sampleB : Asset := ⟨"456 Oak Ave, Los Angeles, CA", 34.0522, -118.2437⟩

/-- Seeded record of bucket `company2` in `storage.ts`. -/
def sampleC : Asset := ⟨"789 Pine Rd, Chicago, IL", 41.8781, -87.6298⟩

/-- A concrete store with a lower-case and a capitalised bucket name. -/
def demoStore : Store := [("company1", [sampleA, sampleB]), ("Company2", [sampleC])]

/-- Bucket of a witness store: a record matching the probe (1, 2), one far
away, and a second near-duplicate of the probe. -/
def w1 : Asset := ⟨"W1", 1, 2⟩

/-- The non-matching record of the witness bucket. -/
def w2 : Asset := ⟨"W2", 50, 60⟩

/-- The second record matching the probe (1, 2) within tolerance. -/
def w3 : Asset := ⟨"W3", 1.00005, 2⟩

/-- Witness store with one bucket of three records. -/
def wStore : Store := [("acme", [w1, w2, w3])]

/-- Batch used in the C5 witness: both records invalid (empty address,
out-of-range latitude). -/
def badBatch : List Asset := [⟨"", 0, 0⟩, ⟨"X", 200, 0⟩]

/-- Record at the 0.00009 tolerance boundary used in the C7 witness. -/
def pA : Asset := ⟨"A", 40.00009, -74.00009⟩

/-- Reference record for the C7 witness. -/
def pB : Asset := ⟨"B", 40, -74⟩

/-- Record at the 0.00011 distance used in the C7 witness. -/
def pC : Asset := ⟨"C", 40.00011, -74⟩

/-- Asset uploaded in the C10 witness. -/
def wUp : Asset := ⟨"1 Main St", 40, -74⟩

/-! ### Lemmas about the association-list primitives -/

theorem findBucket_eq_none_of_not_mem (s : Store) (c : String)
    (h : c ∉ s.map Prod.fst) : findBucket s c = none := by
  induction s with
  | nil => rfl
  | cons p rest ih =>
    simp only [List.map_cons, List.mem_cons] at h
    push_neg at h
    cases p with
    | mk k v =>
      simp only [findBucket]
      rw [if_neg (fun hk => h.1 hk.symm)]
      exact ih h.2

theorem findBucket_mem (s : Store) (c : String) (v : List Asset)
    (h : findBucket s c = some v) : (c, v) ∈ s := by
  induction s with
  | nil => simp [findBucket] at h
  | cons p rest ih =>
    cases p with
    | mk k w =>
      simp only [findBucket] at h
      by_cases hk : k = c
      · rw [if_pos hk] at h
        subst hk
        cases h
        exact List.mem_cons_self _ _
      · rw [if_neg hk] at h
        exact List.mem_cons_of_mem _ (ih h)

theorem findBucket_append_ne (s : Store) (c c' : String) (v : List Asset)
    (h : c' ≠ c) : findBucket (s ++ [(c, v)]) c' = findBucket s c' := by
  induction s with
  | nil =>
    simp only [List.nil_append, findBucket]
    rw [if_neg (fun hc => h hc.symm)]
  | cons p rest ih =>
    cases p with
    | mk k w =>
      simp only [List.cons_append, findBucket]
      by_cases hk : k = c'
      · rw [if_pos hk, if_pos hk]
      · rw [if_neg hk, if_neg hk]
        exact ih

theorem findBucket_append_absent (s : Store) (c : String) (v : List Asset)
    (h : findBucket s c = none) : findBucket (s ++ [(c, v)]) c = some v := by
  induction s with
  | nil => simp [findBucket]
  | cons p rest ih =>
    cases p with
    | mk k w =>
      simp only [findBucket] at h
      by_cases hk : k = c
      · rw [if_pos hk] at h; cases h
      · rw [if_neg hk] at h
        simp only [List.cons_append, findBucket]
        rw [if_neg hk]
        exact ih h

theorem updateKey_of_absent (s : Store) (c : String) (v : List Asset)
    (h : findBucket s c = none) : updateKey s c v = s := by
  induction s with
  | nil => rfl
  | cons p rest ih =>
    cases p with
    | mk k w =>
      simp only [findBucket] at h
      by_cases hk : k = c
      · rw [if_pos hk] at h; cases h
      · rw [if_neg hk] at h
        simp only [updateKey]
        rw [if_neg hk, ih h]

theorem findBucket_updateKey_self (s : Store) (c : String) (v w : List Asset)
    (h : findBucket s c = some w) :
    findBucket (updateKey s c v) c = some v := by
  induction s with
  | nil => simp [findBucket] at h
  | cons p rest ih =>
    cases p with
    | mk k u =>
      simp only [findBucket] at h
      simp only [updateKey]
      by_cases hk : k = c
      · rw [if_pos hk]
        simp [findBucket]
      · rw [if_neg hk]
        rw [if_neg hk] at h
        simp only [findBucket]
        rw [if_neg hk]
        exact ih h

theorem findBucket_updateKey_ne (s : Store) (c c' : String) (v : List Asset)
    (h : c' ≠ c) : findBucket (updateKey s c v) c' = findBucket s c' := by
  induction s with
  | nil => rfl
  | cons p rest ih =>
    cases p with
    | mk k u =>
      simp only [updateKey]
      by_cases hk : k = c
      · rw [if_pos hk]
        simp only [findBucket]
        rw [if_neg (fun hc => h hc.symm), if_neg (fun hk' => h (hk.symm.trans hk').symm)]
      · rw [if_neg hk]
        simp only [findBucket]
        by_cases hk' : k = c'
        · rw [if_pos hk', if_pos hk']
        · rw [if_neg hk', if_neg hk', ih]

theorem updateKey_self (s : Store) (c : String) (v : List Asset)
    (h : findBucket s c = some v) : updateKey s c v = s := by
  induction s with
  | nil => rfl
  | cons p rest ih =>
    cases p with
    | mk k u =>
      simp only [findBucket] at h
      simp only [updateKey]
      by_cases hk : k = c
      · rw [if_pos hk] at h
        cases h
        rw [if_pos hk, hk]
      · rw [if_neg hk] at h
        rw [if_neg hk, ih h]

theorem mem_updateKey (s : Store) (c : String) (v : List Asset)
    (p : String × List Asset) (hp : p ∈ updateKey s c v) :
    p = (c, v) ∨ p ∈ s := by
  induction s with
  | nil => simp [updateKey] at hp
  | cons q rest ih =>
    cases q with
    | mk k u =>
      simp only [updateKey] at hp
      by_cases hk : k = c
      · rw [if_pos hk] at hp
        rcases List.mem_cons.mp hp with h | h
        · exact Or.inl h
        · exact Or.inr (List.mem_cons_of_mem _ h)
      · rw [if_neg hk] at hp
        rcases List.mem_cons.mp hp with h | h
        · exact Or.inr (h ▸ List.mem_cons_self _ _)
        · rcases ih h with h' | h'
          · exact Or.inl h'
          · exact Or.inr (List.mem_cons_of_mem _ h')

theorem mem_eraseKey (s : Store) (c : String) (p : String × List Asset)
    (hp : p ∈ eraseKey s c) : p ∈ s := by
  induction s with
  | nil => simp [eraseKey] at hp
  | cons q rest ih =>
    cases q with
    | mk k u =>
      simp only [eraseKey] at hp
      by_cases hk : k = c
      · rw [if_pos hk] at hp
        exact List.mem_cons_of_mem _ hp
      · rw [if_neg hk] at hp
        rcases List.mem_cons.mp hp with h | h
        · exact h ▸ List.mem_cons_self _ _
        · exact List.mem_cons_of_mem _ (ih h)

theorem findBucket_eraseKey_self (s : Store) (c : String)
    (hnd : (s.map Prod.fst).Nodup) : findBucket (eraseKey s c) c = none := by
  induction s with
  | nil => rfl
  | cons q rest ih =>
    cases q with
    | mk k u =>
      simp only [List.map_cons, List.nodup_cons] at hnd
      simp only [eraseKey]
      by_cases hk : k = c
      · rw [if_pos hk]
        exact findBucket_eq_none_of_not_mem _ _ (hk ▸ hnd.1)
      · rw [if_neg hk]
        simp only [findBucket]
        rw [if_neg hk]
        exact ih hnd.2

theorem updateKey_append_absent (s : Store) (c : String) (v w : List Asset)
    (h : findBucket s c = none) :
    updateKey (s ++ [(c, w)]) c v = s ++ [(c, v)] := by
  induction s with
  | nil => simp [updateKey]
  | cons p rest ih =>
    cases p with
    | mk k u =>
      simp only [findBucket] at h
      by_cases hk : k = c
      · rw [if_pos hk] at h; cases h
      · rw [if_neg hk] at h
        simp only [List.cons_append, updateKey]
        rw [if_neg hk]
        exact congrArg (List.cons (k, u)) (ih h)

/-! ### Characterization of `addAssets` -/

theorem scanAssets_eq (existing input : List Asset) :
    scanAssets existing input =
      (input.filter (fun a => ! existing.any (fun e => isDup e a)),
       (input.filter (fun a => existing.any (fun e => isDup e a))).length) := by
  induction input with
  | nil => rfl
  | cons a rest ih =>
    simp only [scanAssets, ih, List.filter_cons]
    by_cases h : existing.any (fun e => isDup e a) = true
    · simp [h]
    · simp only [Bool.not_eq_true] at h
      simp [h]

theorem filter_length_split {α : Type} (p : α → Bool) (l : List α) :
    (l.filter (fun x => ! p x)).length + (l.filter p).length = l.length := by
  induction l with
  | nil => rfl
  | cons a t ih =>
    by_cases h : p a
    · simp only [List.filter_cons, h]
      simp [h, ← ih]
      omega
    · simp only [List.filter_cons]
      simp [h, ← ih]
      omega

theorem findBucket_create (s : Store) (c : String) :
    findBucket (if (findBucket s c).isNone then s ++ [(c, [])] else s) c =
      some (bucketOf s c) := by
  cases h : findBucket s c with
  | none =>
    simp only [Option.isNone_none, if_true]
    rw [findBucket_append_absent s c [] h]
    simp [bucketOf, h]
  | some w =>
    simp only [Option.isNone_some, Bool.false_eq_true, if_false]
    rw [h]
    simp [bucketOf, h]

theorem addAssets_eq (s : Store) (c : String) (input : List Asset) :
    addAssets s c input =
      (updateKey (if (findBucket s c).isNone then s ++ [(c, [])] else s) c
        (bucketOf s c ++ input.filter (fun a => ! (bucketOf s c).any (fun e => isDup e a))),
       ⟨input.filter (fun a => ! (bucketOf s c).any (fun e => isDup e a)),
        (input.filter (fun a => (bucketOf s c).any (fun e => isDup e a))).length⟩) := by
  have hb : bucketOf (if (findBucket s c).isNone then s ++ [(c, [])] else s) c
      = bucketOf s c := by
    simp only [bucketOf]
    rw [findBucket_create s c]
    simp [bucketOf]
  simp only [addAssets]
  rw [hb, scanAssets_eq]

theorem addAssets_store_bucket (s : Store) (c : String) (input : List Asset) :
    findBucket (addAssets s c input).1 c
      = some (bucketOf s c ++ (addAssets s c input).2.added) := by
  rw [addAssets_eq]
  exact findBucket_updateKey_self _ _ _ _ (findBucket_create s c)

theorem addAssets_store_other (s : Store) (c : String) (input : List Asset)
    (c' : String) (h : c' ≠ c) :
    findBucket (addAssets s c input).1 c' = findBucket s c' := by
  rw [addAssets_eq]
  simp only
  rw [findBucket_updateKey_ne _ _ _ _ h]
  cases hf : findBucket s c with
  | none =>
    simp only [Option.isNone_none, if_true]
    exact findBucket_append_ne s c c' [] h
  | some w =>
    simp only [Option.isNone_some, Bool.false_eq_true, if_false]

/-! ### Branch equations for `deleteAsset` -/

theorem deleteAsset_eq_absent (s : Store) (c : String) (la lo : ℚ)
    (h : findBucket s c = none) :
    deleteAsset s c la lo = (s, ⟨false, none⟩) := by
  unfold deleteAsset
  rw [h]

theorem deleteAsset_eq_nomatch (s : Store) (c : String) (la lo : ℚ)
    (bucket : List Asset) (hb : findBucket s c = some bucket)
    (h : bucket.filter (matchesCoords la lo) = []) :
    deleteAsset s c la lo = (s, ⟨false, none⟩) := by
  unfold deleteAsset
  rw [hb]
  simp only [h]

theorem deleteAsset_eq_match (s : Store) (c : String) (la lo : ℚ)
    (bucket : List Asset) (d : Asset) (rest : List Asset)
    (hb : findBucket s c = some bucket)
    (h : bucket.filter (matchesCoords la lo) = d :: rest) :
    deleteAsset s c la lo =
      (if (bucket.filter (fun a => ! matchesCoords la lo a)).isEmpty then eraseKey s c
       else updateKey s c (bucket.filter (fun a => ! matchesCoords la lo a)),
       ⟨true, some d⟩) := by
  unfold deleteAsset
  rw [hb]
  simp only [h]

/-! ### Invariant preservation -/

theorem storeInv_addAssets (s : Store) (c : String) (input : List Asset)
    (hs : storeInv s) (hne : input ≠ []) :
    storeInv (addAssets s c input).1 := by
  rw [addAssets_eq]
  cases hf : findBucket s c with
  | none =>
    simp only [Option.isNone_none, if_true]
    have hb : bucketOf s c = [] := by simp [bucketOf, hf]
    rw [hb]
    rw [updateKey_append_absent s c _ [] hf]
    intro p hp
    rcases List.mem_append.mp hp with h | h
    · exact hs p h
    · have hp' : p = (c, [] ++ List.filter (fun a => !List.any [] (fun e => isDup e a)) input) := by
        simpa using h
      rw [hp']
      simp only [List.nil_append, List.any_nil, Bool.not_false, List.filter_true]
      simpa using hne
  | some w =>
    simp only [Option.isNone_some, Bool.false_eq_true, if_false]
    intro p hp
    rcases mem_updateKey _ _ _ _ hp with h | h
    · rw [h]
      have hw : (c, w) ∈ s := findBucket_mem s c w hf
      have hwne : w ≠ [] := hs (c, w) hw
      have hb : bucketOf s c = w := by simp [bucketOf, hf]
      rw [hb]
      simp [hwne]
    · exact hs p h

theorem storeInv_deleteAsset (s : Store) (c : String) (la lo : ℚ)
    (hs : storeInv s) : storeInv (deleteAsset s c la lo).1 := by
  cases hf : findBucket s c with
  | none => rw [deleteAsset_eq_absent s c la lo hf]; exact hs
  | some bucket =>
    cases hm : bucket.filter (matchesCoords la lo) with
    | nil => rw [deleteAsset_eq_nomatch s c la lo bucket hf hm]; exact hs
    | cons d rest =>
      rw [deleteAsset_eq_match s c la lo bucket d rest hf hm]
      by_cases hr : (bucket.filter (fun a => ! matchesCoords la lo a)).isEmpty
      · simp only [hr, if_true]
        intro p hp
        exact hs p (mem_eraseKey _ _ _ hp)
      · simp only [hr, Bool.false_eq_true, if_false]
        intro p hp
        rcases mem_updateKey _ _ _ _ hp with h | h
        · rw [h]
          intro hnil
          simp only [Prod.mk.injEq] at hnil
          rw [hnil] at hr
          simp at hr
        · exact hs p h

theorem storeInv_applyOp (s : Store) (op : StoreOp)
    (hs : storeInv s) (hop : addNonemptyInput op = true) :
    storeInv (applyOp s op) := by
  cases op with
  | add c assets =>
    have hne : assets ≠ [] := by
      simp only [addNonemptyInput, Bool.not_eq_true'] at hop
      exact fun h => by simp [h] at hop
    exact storeInv_addAssets s c assets hs hne
  | del c la lo => exact storeInv_deleteAsset s c la lo hs
  | list _ => exact hs
  | companies => exact hs
  | totalCount => exact hs

/-! ### Miscellaneous lemmas -/

theorem isDup_self (a : Asset) : isDup a a = true := by
  simp only [isDup, sub_self, abs_zero, Bool.and_eq_true, decide_eq_true_eq]
  constructor <;> norm_num [tolerance]

theorem validateFrom_enumFrom (i : Nat) (l : List Asset) :
    validateFrom i l = ((l.enumFrom i).map (fun p => assetViolations p.1 p.2)).flatten := by
  induction l generalizing i with
  | nil => rfl
  | cons a rest ih => simp [validateFrom, List.enumFrom, ih]

theorem validateAssets_enum (l : List Asset) :
    validateAssets l = ((l.enum.map (fun p => assetViolations p.1 p.2))).flatten :=
  validateFrom_enumFrom 0 l

theorem filter_singleton_pos {α : Type} (p : α → Bool) (x : α) (h : p x = true) :
    [x].filter p = [x] := by
  simp [List.filter_cons, h]

theorem filter_singleton_neg {α : Type} (p : α → Bool) (x : α) (h : p x = false) :
    [x].filter p = [] := by
  simp [List.filter_cons, h]

theorem matchesCoords_eq_true (la lo : ℚ) (a : Asset)
    (h1 : |a.latitude - la| < tolerance) (h2 : |a.longitude - lo| < tolerance) :
    matchesCoords la lo a = true := by
  simp [matchesCoords, h1, h2]

theorem matchesCoords_eq_false_lat (la lo : ℚ) (a : Asset)
    (h1 : ¬ (|a.latitude - la| < tolerance)) :
    matchesCoords la lo a = false := by
  simp [matchesCoords, h1]

/-! ### Claim theorems -/

/-- C1: the claim fails on the code.  `getAssets` uses the filter as an
exact key (`this.storage[companyId] || []`), so on a store with buckets
"company1" and "Company2" the filters "comp" and "COMP" return nothing,
while the case-insensitive substring semantics the claim states (and which
the storage unit tests and README of the repository itself require; `getAssetsSpec`
follows the spec wording) returns the records of both buckets. -/
theorem c1_getAssets_exact_lookup_not_substring :
    getAssets demoStore (some "comp") = [] ∧
    getAssets demoStore (some "COMP") = [] ∧
    getAssetsSpec demoStore "comp"
      = tagWith "company1" [sampleA, sampleB] ++ tagWith "Company2" [sampleC] ∧
    getAssetsSpec demoStore "COMP"
      = tagWith "company1" [sampleA, sampleB] ++ tagWith "Company2" [sampleC] := by
  refine ⟨rfl, rfl, rfl, rfl⟩

/-- C2: an input record is inserted by `addAssets` iff no record already
stored in the bucket of the company before the call is within the duplicate
tolerance window of it: the added list is exactly the input filtered
against the pre-existing bucket, so records of one batch are never
compared against each other; concretely, two mutual near-duplicates that
both clear the (empty) pre-existing bucket are both inserted. -/
theorem c2_add_compares_against_stored_only (s : Store) (c : String)
    (batch : List Asset) :
    (addAssets s c batch).2.added
      = batch.filter (fun a => ! (bucketOf s c).any (fun e => isDup e a)) ∧
    isDup ⟨"P", 10, 20⟩ ⟨"Q", 10.00005, 20.00005⟩ = true ∧
    (addAssets [] "acme" [⟨"P", 10, 20⟩, ⟨"Q", 10.00005, 20.00005⟩]).2.added
      = [⟨"P", 10, 20⟩, ⟨"Q", 10.00005, 20.00005⟩] := by
  refine ⟨?_, ?_, ?_⟩
  · rw [addAssets_eq]
  · have h1 : |(10 : ℚ) - 10.00005| = 0.00005 := by norm_num
    have h2 : |(20 : ℚ) - 20.00005| = 0.00005 := by norm_num
    simp only [isDup]
    rw [h1, h2]
    norm_num [tolerance]
  · rw [addAssets_eq]
    simp [bucketOf, findBucket]

/-- C3 counterexample: the empty store satisfies the invariant, but
`addAssets "acme" []` creates the bucket (`this.storage[companyId] = []`)
and then adds nothing, leaving an empty bucket behind, so the claim as
stated is false. -/
theorem c3_add_empty_input_leaves_empty_bucket :
    storeInv ([] : Store) ∧
    applyOps [] [StoreOp.add "acme" []] = [("acme", [])] ∧
    ¬ storeInv (applyOps [] [StoreOp.add "acme" []]) := by
  refine ⟨by decide, by decide, by decide⟩

/-- C3 (amended): after every sequence of Store operations (add, delete,
list, companies, totalCount) starting from a state satisfying the
invariant, every key still maps to a non-empty bucket, provided every add
operation in the sequence has a non-empty input list; an add with an empty
input for an unseen company is the one exception (see the counterexample). -/
theorem c3_storeInv_preserved_nonempty_adds (s : Store) (ops : List StoreOp)
    (hs : storeInv s) (hops : ∀ op ∈ ops, addNonemptyInput op = true) :
    storeInv (applyOps s ops) := by
  induction ops generalizing s with
  | nil => exact hs
  | cons op rest ih =>
    have h1 := storeInv_applyOp s op hs (hops op (List.mem_cons_self _ _))
    exact ih (applyOp s op) h1 (fun o ho => hops o (List.mem_cons_of_mem _ ho))

/-- C3 witness: a concrete run (add one record, delete against an unknown
company, read the companies) through the amended preservation theorem. -/
theorem c3_storeInv_preserved_nonempty_adds_witness :
    storeInv (applyOps [] [StoreOp.add "acme" [sampleA],
      StoreOp.del "missing" 0 0, StoreOp.companies]) :=
  c3_storeInv_preserved_nonempty_adds [] _ (by decide) (by decide)

/-- C4: when at least one record of the company bucket lies within the
tolerance window of the given coordinates, `deleteAsset` succeeds,
reports the first matching record in insertion order as `deletedAsset`,
leaves exactly the non-matching records in their original relative order,
and erases the key of the company entirely when no record remains. -/
theorem c4_delete_removes_all_matching (s : Store) (c : String) (la lo : ℚ)
    (hnd : (s.map Prod.fst).Nodup)
    (h : (bucketOf s c).any (matchesCoords la lo) = true) :
    (deleteAsset s c la lo).2.success = true ∧
    (deleteAsset s c la lo).2.deletedAsset
      = ((bucketOf s c).filter (matchesCoords la lo)).head? ∧
    findBucket (deleteAsset s c la lo).1 c
      = (if (bucketOf s c).filter (fun a => ! matchesCoords la lo a) = []
         then none
         else some ((bucketOf s c).filter (fun a => ! matchesCoords la lo a))) := by
  cases hf : findBucket s c with
  | none => simp [bucketOf, hf] at h
  | some bucket =>
    have hb : bucketOf s c = bucket := by simp [bucketOf, hf]
    rw [hb] at h ⊢
    cases hm : bucket.filter (matchesCoords la lo) with
    | nil =>
      rcases List.any_eq_true.mp h with ⟨x, hx, hpx⟩
      have hx' : x ∈ bucket.filter (matchesCoords la lo) :=
        List.mem_filter.mpr ⟨hx, hpx⟩
      rw [hm] at hx'
      cases hx'
    | cons d rest =>
      rw [deleteAsset_eq_match s c la lo bucket d rest hf hm]
      refine ⟨rfl, rfl, ?_⟩
      by_cases hr : (bucket.filter (fun a => ! matchesCoords la lo a)).isEmpty
      · have hr' : bucket.filter (fun a => ! matchesCoords la lo a) = [] :=
          List.isEmpty_iff.mp hr
        simp only [hr, if_true, hr']
        simp [findBucket_eraseKey_self s c hnd]
      · have hr' : bucket.filter (fun a => ! matchesCoords la lo a) ≠ [] := by
          intro he
          rw [he] at hr
          simp at hr
        simp only [hr, Bool.false_eq_true, if_false]
        rw [findBucket_updateKey_self s c _ bucket hf, if_neg hr']

/-- C4 witness: deleting at (1, 2) from a bucket holding two records in
the window and one outside it. -/
theorem c4_delete_removes_all_matching_witness :
    (deleteAsset wStore "acme" 1 2).2.success = true ∧
    (deleteAsset wStore "acme" 1 2).2.deletedAsset
      = ((bucketOf wStore "acme").filter (matchesCoords 1 2)).head? ∧
    findBucket (deleteAsset wStore "acme" 1 2).1 "acme"
      = (if (bucketOf wStore "acme").filter (fun a => ! matchesCoords 1 2 a) = []
         then none
         else some ((bucketOf wStore "acme").filter (fun a => ! matchesCoords 1 2 a))) := by
  have m1 : matchesCoords 1 2 w1 = true :=
    matchesCoords_eq_true 1 2 w1 (by norm_num [w1, tolerance])
      (by norm_num [w1, tolerance])
  exact c4_delete_removes_all_matching wStore "acme" 1 2 (by decide)
    (by simp [bucketOf, wStore, findBucket, m1])

/-- C8: deleting for a company with no bucket, or with a bucket none of
whose records fall in the tolerance window, returns `{success: false}`
with no `deletedAsset` and leaves the whole store — every bucket of every
company — unchanged. -/
theorem c8_delete_miss_store_unchanged (s : Store) (c : String) (la lo : ℚ)
    (h : findBucket s c = none ∨
      (bucketOf s c).all (fun a => ! matchesCoords la lo a) = true) :
    deleteAsset s c la lo = (s, ⟨false, none⟩) := by
  cases hf : findBucket s c with
  | none => exact deleteAsset_eq_absent s c la lo hf
  | some bucket =>
    have hall : (bucketOf s c).all (fun a => ! matchesCoords la lo a) = true := by
      rcases h with h | h
      · rw [hf] at h
        cases h
      · exact h
    have hb : bucketOf s c = bucket := by simp [bucketOf, hf]
    rw [hb] at hall
    have hm : bucket.filter (matchesCoords la lo) = [] := by
      refine List.filter_eq_nil_iff.mpr (fun a ha => ?_)
      have hna := List.all_eq_true.mp hall a ha
      simp only [Bool.not_eq_true'] at hna
      simp [hna]
    exact deleteAsset_eq_nomatch s c la lo bucket hf hm

/-- C8 witness: a delete for an unknown company and a delete missing every
record of an existing bucket both return failure and the unchanged store. -/
theorem c8_delete_miss_store_unchanged_witness :
    deleteAsset demoStore "nope" 1 2 = (demoStore, ⟨false, none⟩) ∧
    deleteAsset demoStore "company1" 10 10 = (demoStore, ⟨false, none⟩) := by
  have m1 : matchesCoords 10 10 sampleA = false := by
    refine matchesCoords_eq_false_lat 10 10 sampleA ?_
    have he : |sampleA.latitude - 10| = 30.7128 := by norm_num [sampleA]
    rw [he]
    norm_num [tolerance]
  have m2 : matchesCoords 10 10 sampleB = false := by
    refine matchesCoords_eq_false_lat 10 10 sampleB ?_
    have he : |sampleB.latitude - 10| = 24.0522 := by norm_num [sampleB]
    rw [he]
    norm_num [tolerance]
  exact ⟨c8_delete_miss_store_unchanged demoStore "nope" 1 2 (Or.inl rfl),
    c8_delete_miss_store_unchanged demoStore "company1" 10 10
      (Or.inr (by simp [bucketOf, demoStore, findBucket, m1, m2]))⟩

/-- C5: when any record of a parsed batch fails validation, the upload
handler leaves the store untouched and answers 400 with the violation
messages of all failing records — the per-record message lists of the
whole batch, flattened in order and joined with "; " — not only the
first. -/
theorem c5_upload_rejects_whole_batch (s : Store) (cid : String)
    (batch : List Asset) (h : validateAssets batch ≠ []) :
    (uploadValidated s cid batch).1 = s ∧
    (uploadValidated s cid batch).2 =
      ⟨400, false, "Data validation failed", [], 0,
        some (String.intercalate "; "
          ((batch.enum.map (fun p => assetViolations p.1 p.2)).flatten))⟩ := by
  have hne : (validateAssets batch).isEmpty = false := by
    cases hb : validateAssets batch with
    | nil => exact absurd hb h
    | cons x xs => rfl
  constructor
  · simp [uploadValidated, hne]
  · simp only [uploadValidated, hne, Bool.false_eq_true, if_false]
    rw [validateAssets_enum batch]

/-- C5 witness: a two-record batch in which both records fail produces a
400 response carrying both violation messages and leaves the store as it
was. -/
theorem c5_upload_rejects_whole_batch_witness :
    validateAssets badBatch ≠ [] ∧
    (uploadValidated demoStore "acme" badBatch).1 = demoStore ∧
    (uploadValidated demoStore "acme" badBatch).2 =
      ⟨400, false, "Data validation failed", [], 0,
        some (String.intercalate "; "
          ((badBatch.enum.map (fun p => assetViolations p.1 p.2)).flatten))⟩ :=
  ⟨by decide, (c5_upload_rejects_whole_batch demoStore "acme" badBatch (by decide)).1,
    (c5_upload_rejects_whole_batch demoStore "acme" badBatch (by decide)).2⟩

/-- C6: adding the same record twice to the same company is idempotent:
the second `addAssets` call returns `{added: [], duplicatesSkipped: 1}`,
leaves the whole store — and hence the total record count — unchanged. -/
theorem c6_add_idempotent (s : Store) (c : String) (r : Asset)
    (hr : recordValid r = true) :
    (addAssets (addAssets s c [r]).1 c [r]).2 = ⟨[], 1⟩ ∧
    (addAssets (addAssets s c [r]).1 c [r]).1 = (addAssets s c [r]).1 ∧
    getTotalAssets (addAssets (addAssets s c [r]).1 c [r]).1
      = getTotalAssets (addAssets s c [r]).1 := by
  have hb1 : findBucket (addAssets s c [r]).1 c
      = some (bucketOf s c ++ (addAssets s c [r]).2.added) :=
    addAssets_store_bucket s c [r]
  have hadded : (addAssets s c [r]).2.added
      = [r].filter (fun a => ! (bucketOf s c).any (fun e => isDup e a)) := by
    rw [addAssets_eq]
  have hdup : (bucketOf s c ++ (addAssets s c [r]).2.added).any
      (fun e => isDup e r) = true := by
    by_cases h : (bucketOf s c).any (fun e => isDup e r) = true
    · rw [List.any_append, h, Bool.true_or]
    · have h' : (bucketOf s c).any (fun e => isDup e r) = false := by
        simpa using h
      have hone : (addAssets s c [r]).2.added = [r] := by
        rw [hadded]
        simp [h']
      rw [List.any_append, hone]
      simp [isDup_self]
  have h2 := addAssets_eq (addAssets s c [r]).1 c [r]
  have hbO : bucketOf (addAssets s c [r]).1 c
      = bucketOf s c ++ (addAssets s c [r]).2.added := by
    simp [bucketOf, hb1]
  rw [hbO] at h2
  have hfilter : [r].filter
      (fun a => ! (bucketOf s c ++ (addAssets s c [r]).2.added).any
        (fun e => isDup e a)) = [] := by
    refine filter_singleton_neg _ r ?_
    show (! (bucketOf s c ++ (addAssets s c [r]).2.added).any
      (fun e => isDup e r)) = false
    rw [hdup]
    rfl
  have hfilter2 : [r].filter
      (fun a => (bucketOf s c ++ (addAssets s c [r]).2.added).any
        (fun e => isDup e a)) = [r] := by
    refine filter_singleton_pos _ r ?_
    exact hdup
  rw [hfilter, hfilter2] at h2
  have hnotnone : (findBucket (addAssets s c [r]).1 c).isNone = false := by
    rw [hb1]
    rfl
  rw [hnotnone] at h2
  simp only [Bool.false_eq_true, if_false, List.append_nil, List.length_cons,
    List.length_nil] at h2
  rw [updateKey_self _ _ _ hb1] at h2
  exact ⟨by rw [h2], by rw [h2], by rw [h2]⟩

/-- C6 witness: the concrete double-add of one valid record to a fresh
store. -/
theorem c6_add_idempotent_witness :
    (addAssets (addAssets [] "acme" [w2]).1 "acme" [w2]).2 = ⟨[], 1⟩ ∧
    (addAssets (addAssets [] "acme" [w2]).1 "acme" [w2]).1
      = (addAssets [] "acme" [w2]).1 ∧
    getTotalAssets (addAssets (addAssets [] "acme" [w2]).1 "acme" [w2]).1
      = getTotalAssets (addAssets [] "acme" [w2]).1 :=
  c6_add_idempotent [] "acme" w2 (by decide)

/-- C7: with tolerance ε = 0.0001 the duplicate test is a strict
absolute-difference comparison on both axes: records differing by exactly
0.00009 in both latitude and longitude are duplicates, while a difference
of exactly 0.00011 on either axis alone already rules the pair out. -/
theorem c7_tolerance_boundary (a b : Asset)
    (hlat : |a.latitude - b.latitude| = 0.00009)
    (hlon : |a.longitude - b.longitude| = 0.00009) :
    isDup a b = true ∧
    ∀ x y : Asset,
      (|x.latitude - y.latitude| = 0.00011 ∨ |x.longitude - y.longitude| = 0.00011) →
      isDup x y = false := by
  constructor
  · have h1 : |a.latitude - b.latitude| < tolerance := by
      rw [hlat]
      norm_num [tolerance]
    have h2 : |a.longitude - b.longitude| < tolerance := by
      rw [hlon]
      norm_num [tolerance]
    simp [isDup, h1, h2]
  · intro x y hxy
    have hno : ¬ ((0.00011 : ℚ) < tolerance) := by norm_num [tolerance]
    rcases hxy with h | h
    · have hx : ¬ (|x.latitude - y.latitude| < tolerance) := by
        rw [h]
        exact hno
      simp [isDup, hx]
    · have hx : ¬ (|x.longitude - y.longitude| < tolerance) := by
        rw [h]
        exact hno
      simp [isDup, hx]

/-- C7 witness: the boundary instances evaluated on concrete records. -/
theorem c7_tolerance_boundary_witness :
    isDup pA pB = true ∧ isDup pC pB = false :=
  ⟨(c7_tolerance_boundary pA pB (by norm_num [pA, pB]) (by norm_num [pA, pB])).1,
   (c7_tolerance_boundary pA pB (by norm_num [pA, pB]) (by norm_num [pA, pB])).2
     pC pB (Or.inl (by norm_num [pC, pB]))⟩

/-- C9: `addAssets` returns an added list that is an order-preserving
subsequence of its input, its length plus the skipped-duplicate count is
the input length, the company bucket afterwards is the old bucket with
the added list appended, and the bucket of every other company is unchanged. -/
theorem c9_add_shape (s : Store) (c : String) (input : List Asset) :
    List.Sublist (addAssets s c input).2.added input ∧
    (addAssets s c input).2.added.length + (addAssets s c input).2.duplicatesSkipped
      = input.length ∧
    bucketOf (addAssets s c input).1 c
      = bucketOf s c ++ (addAssets s c input).2.added ∧
    ∀ c', c' ≠ c → findBucket (addAssets s c input).1 c' = findBucket s c' := by
  refine ⟨?_, ?_, ?_, fun c' h => addAssets_store_other s c input c' h⟩
  · rw [addAssets_eq]
    exact List.filter_sublist input
  · rw [addAssets_eq]
    exact filter_length_split _ input
  · simp [bucketOf, addAssets_store_bucket s c input]

/-- C9 witness: one add against the two-bucket demo store, checked also on
the untouched other bucket. -/
theorem c9_add_shape_witness :
    List.Sublist (addAssets demoStore "company1" [w1]).2.added [w1] ∧
    (addAssets demoStore "company1" [w1]).2.added.length
      + (addAssets demoStore "company1" [w1]).2.duplicatesSkipped = 1 ∧
    bucketOf (addAssets demoStore "company1" [w1]).1 "company1"
      = bucketOf demoStore "company1" ++ (addAssets demoStore "company1" [w1]).2.added ∧
    findBucket (addAssets demoStore "company1" [w1]).1 "Company2"
      = findBucket demoStore "Company2" := by
  have h := c9_add_shape demoStore "company1" [w1]
  exact ⟨h.1, h.2.1, h.2.2.1, h.2.2.2 "Company2" (by decide)⟩

/-- C10: the upload handler stores under the trimmed company identifier
(`addAssets(companyId.trim(), ...)`) while the delete handler passes its
companyId to `deleteAsset` untrimmed, so an asset uploaded under an
identifier with surrounding whitespace lands under the trimmed key and a
delete request using the identical untrimmed string finds no bucket and
returns the 404 not-found response, leaving the store unchanged. -/
theorem c10_upload_trims_delete_does_not (s : Store) (cid : String) (a : Asset)
    (htrim : strTrim cid ≠ cid) (hne : strTrim cid ≠ "")
    (habs : findBucket s cid = none)
    (habs2 : findBucket s (strTrim cid) = none)
    (hv : validateAssets [a] = [])
    (hla : ¬ (a.latitude < -90 ∨ a.latitude > 90))
    (hlo : ¬ (a.longitude < -180 ∨ a.longitude > 180)) :
    findBucket (uploadValidated s cid [a]).1 (strTrim cid) = some [a] ∧
    findBucket (uploadValidated s cid [a]).1 cid = none ∧
    deleteHandler (uploadValidated s cid [a]).1 cid a.latitude a.longitude
      = ((uploadValidated s cid [a]).1,
         ⟨404, false, "Asset not found", none,
          some ("No asset found at the given coordinates for company " ++ cid)⟩) := by
  have hstore : (uploadValidated s cid [a]).1 = (addAssets s (strTrim cid) [a]).1 := by
    simp [uploadValidated, hv]
  have hadded : (addAssets s (strTrim cid) [a]).2.added = [a] := by
    rw [addAssets_eq]
    simp [bucketOf, habs2]
  have h1 : findBucket (addAssets s (strTrim cid) [a]).1 (strTrim cid) = some [a] := by
    have hsb := addAssets_store_bucket s (strTrim cid) [a]
    rw [hadded] at hsb
    simpa [bucketOf, habs2] using hsb
  have h2 : findBucket (addAssets s (strTrim cid) [a]).1 cid = none := by
    rw [addAssets_store_other s (strTrim cid) [a] cid (fun hh => htrim hh.symm)]
    exact habs
  refine ⟨by rw [hstore]; exact h1, by rw [hstore]; exact h2, ?_⟩
  have hdel : deleteAsset (addAssets s (strTrim cid) [a]).1 cid a.latitude a.longitude
      = ((addAssets s (strTrim cid) [a]).1, ⟨false, none⟩) :=
    deleteAsset_eq_absent _ _ _ _ h2
  rw [hstore]
  simp [deleteHandler, hne, hla, hlo, hdel]

/-- C10 witness: uploading under " acme " stores under "acme", and the
delete request quoting " acme " verbatim is answered 404 with the store
unchanged. -/
theorem c10_upload_trims_delete_does_not_witness :
    findBucket (uploadValidated [] " acme " [wUp]).1 (strTrim " acme ") = some [wUp] ∧
    findBucket (uploadValidated [] " acme " [wUp]).1 " acme " = none ∧
    deleteHandler (uploadValidated [] " acme " [wUp]).1 " acme "
        wUp.latitude wUp.longitude
      = ((uploadValidated [] " acme " [wUp]).1,
         ⟨404, false, "Asset not found", none,
          some ("No asset found at the given coordinates for company " ++ " acme ")⟩) :=
  c10_upload_trims_delete_does_not [] " acme " wUp (by decide) (by decide) rfl rfl
    (by decide) (by decide) (by decide)

end ClimateX
